import Mathlib

/-!
Verification development for the recall-app repository (src/src-tauri/src).

Modelling conventions:
- Rust `u8` bytes are modelled as `Fin 256`; `u64`/`usize` integers as `Nat`
  (with explicit saturation or `% 2 ^ 64` where the Rust operation saturates
  or could wrap); `i64` as `Int`.
- `f32`/`f64` floating-point values are modelled as real numbers with exact
  real arithmetic (the idealization of the IEEE-754 computation).
- External library calls that the repository treats as opaque services
  (the Argon2 KDF, the AES-256-GCM AEAD cipher, salt-string validation,
  UTF-8 decoding) are modelled as explicit function parameters, bundled in
  `CryptoPrims`, carrying only their documented interface; base64 standard
  encoding (the `base64` crate's `general_purpose::STANDARD` engine) is
  implemented concretely below and its round-trip is proved.
- Randomness (nonces, fresh salts, UUIDs) and clock reads are modelled as
  explicit input parameters.
- The SQLite tables of `db.rs` are modelled as in-memory lists of row
  records inside `DbState`; each SQL statement becomes the corresponding
  pure list transformation.
-/

namespace Recall

/-- Bytes (Rust `u8`) are modelled as `Fin 256`. -/
abbrev Byte := Fin 256

/-! ### Base64 standard encoding (the `base64` crate, `STANDARD` engine) -/

/-- Character of the standard base64 alphabet at index `n` (`n < 64`). -/
def b64Char (n : Nat) : Char :=
  if n < 26 then Char.ofNat (65 + n)
  else if n < 52 then Char.ofNat (97 + (n - 26))
  else if n < 62 then Char.ofNat (48 + (n - 52))
  else if n = 62 then '+'
  else '/'

/-- Index of a character in the standard base64 alphabet, `none` when the
character is not in the alphabet (in particular the pad `'='`). -/
def b64Val (c : Char) : Option (Fin 64) :=
  let n := c.toNat
  if h : 65 ≤ n ∧ n ≤ 90 then some ⟨n - 65, by omega⟩
  else if h : 97 ≤ n ∧ n ≤ 122 then some ⟨26 + (n - 97), by omega⟩
  else if h : 48 ≤ n ∧ n ≤ 57 then some ⟨52 + (n - 48), by omega⟩
  else if n = 43 then some ⟨62, by omega⟩
  else if n = 47 then some ⟨63, by omega⟩
  else none

/-- Base64 encoding of a byte list, three input bytes per four output
characters, with `'='` padding on the final partial chunk. -/
def b64EncodeChunks : List Byte → List Char
  | [] => []
  | [a] => [b64Char (a.val / 4), b64Char (a.val % 4 * 16), '=', '=']
  | [a, b] => [b64Char (a.val / 4), b64Char (a.val % 4 * 16 + b.val / 16),
      b64Char (b.val % 16 * 4), '=']
  | a :: b :: c :: rest =>
      b64Char (a.val / 4) :: b64Char (a.val % 4 * 16 + b.val / 16) ::
      b64Char (b.val % 16 * 4 + c.val / 64) :: b64Char (c.val % 64) ::
      b64EncodeChunks rest

/-- Base64 encoding into a string, as `general_purpose::STANDARD.encode`. -/
def b64encode (l : List Byte) : String :=
  String.mk (b64EncodeChunks l)

/-- Base64 decoding of a character list, four characters per chunk, strict
about padding placement and about trailing bits being zero, as the
`STANDARD` engine is. -/
def b64DecodeChunks : List Char → Option (List Byte)
  | [] => some []
  | c1 :: c2 :: c3 :: c4 :: rest =>
    (b64Val c1).bind fun e1 =>
    (b64Val c2).bind fun e2 =>
    if c3 = '=' then
      if c4 = '=' ∧ rest = [] ∧ e2.val % 16 = 0 then
        some [⟨e1.val * 4 + e2.val / 16, by
          have h1 := e1.isLt; have h2 := e2.isLt; omega⟩]
      else none
    else
      (b64Val c3).bind fun e3 =>
      if c4 = '=' then
        if rest = [] ∧ e3.val % 4 = 0 then
          some [⟨e1.val * 4 + e2.val / 16, by
              have h1 := e1.isLt; have h2 := e2.isLt; omega⟩,
            ⟨e2.val % 16 * 16 + e3.val / 4, by
              have h2 := e2.isLt; have h3 := e3.isLt; omega⟩]
        else none
      else
        (b64Val c4).bind fun e4 =>
        (b64DecodeChunks rest).map (fun bs =>
          ⟨e1.val * 4 + e2.val / 16, by
              have h1 := e1.isLt; have h2 := e2.isLt; omega⟩ ::
          ⟨e2.val % 16 * 16 + e3.val / 4, by
              have h2 := e2.isLt; have h3 := e3.isLt; omega⟩ ::
          ⟨e3.val % 4 * 64 + e4.val, by
              have h3 := e3.isLt; have h4 := e4.isLt; omega⟩ :: bs)
  | _ => none

/-- Base64 decoding of a string, failing with an error message on malformed
input, as `general_purpose::STANDARD.decode` surfaced through the `String`
errors of `db.rs`. -/
def b64decodeE (s : String) : Except String (List Byte) :=
  match b64DecodeChunks s.toList with
  | some bs => Except.ok bs
  | none => Except.error "b64 decode error"

/-! ### CryptoEngine (`src/src-tauri/src/db.rs`, `Crypto`) -/

/-- External cryptographic primitives used by `Crypto`, modelled at their
documented interfaces: `kdf` is `Argon2::default().hash_password_into`
(password bytes, salt bytes, result written into the caller's 32-byte
buffer); `parseSalt` is `SaltString::from_b64` (returning the validated
salt whose bytes feed the KDF); `aeadEnc`/`aeadDec` are AES-256-GCM
`encrypt`/`decrypt` (key, nonce, payload). -/
structure CryptoPrims where
  kdf : List Byte → List Byte → Except String (List Byte)
  parseSalt : String → Option String
  aeadEnc : List Byte → List Byte → List Byte → List Byte
  aeadDec : List Byte → List Byte → List Byte → Except String (List Byte)

/-- Bytes of a string, modelling `str::as_bytes` (code points reduced mod
256; the payloads in the claims below are byte-level, so this encoding
choice is immaterial). -/
def strBytes (s : String) : List Byte :=
  s.toList.map (fun c => ⟨c.toNat % 256, Nat.mod_lt _ (by omega)⟩)

/-- The `Crypto` struct of `db.rs`: an optional AES-256 key and the salt
string in use. -/
structure Crypto where
  key : Option (List Byte)
  salt : Option String

/-- Model of `Crypto::new`. Randomness is passed explicitly: `freshSalt`
is the `SaltString::generate` result used when no salt was supplied, and
`fallbackSalt` the one generated when `SaltString::from_b64` rejects the
supplied salt. On a KDF error the error is discarded (`let _ = ...`) and
the key is taken from the untouched zero-initialized 32-byte buffer. -/
def Crypto.new (P : CryptoPrims) (password : Option String) (salt : Option String)
    (freshSalt fallbackSalt : String) : Crypto :=
  match password with
  | some pw =>
    let saltStr := salt.getD freshSalt
    let saltObj := (P.parseSalt saltStr).getD fallbackSalt
    let keyBytes :=
      match P.kdf (strBytes pw) (strBytes saltObj) with
      | Except.ok kb => kb
      | Except.error _ => List.replicate 32 (0 : Byte)
    { key := some keyBytes, salt := some saltStr }
  | none => { key := none, salt := salt }

/-- Model of `Crypto::encrypt`. The fresh random 96-bit nonce drawn from
`OsRng` is passed explicitly as `nonce`. Keyed: AEAD-encrypt and
base64-encode nonce and ciphertext. Unkeyed: empty nonce and
base64-encoded plaintext. -/
def Crypto.encrypt (P : CryptoPrims) (c : Crypto) (nonce : List Byte)
    (data : List Byte) : String × String :=
  match c.key with
  | some key => (b64encode nonce, b64encode (P.aeadEnc key nonce data))
  | none => ("", b64encode data)

/-- Model of `Crypto::decrypt`: base64-decode the ciphertext first; keyed,
also base64-decode the nonce and AEAD-decrypt; unkeyed, return the decoded
bytes directly. -/
def Crypto.decrypt (P : CryptoPrims) (c : Crypto) (nonceB64 ctB64 : String) :
    Except String (List Byte) :=
  match b64decodeE ctB64 with
  | Except.error e => Except.error e
  | Except.ok data =>
    match c.key with
    | some key =>
      match b64decodeE nonceB64 with
      | Except.error e => Except.error e
      | Except.ok nonceBytes => P.aeadDec key nonceBytes data
    | none => Except.ok data

/-! ### EncryptedStore (`src/src-tauri/src/db.rs`, `Db`)

The SQLite tables are modelled as lists of rows; `created_at` timestamps
(RFC 3339 strings in the schema) are modelled as `Nat` clock readings, and
row ids (UUIDs) are explicit parameters. -/

/-- Row of the `sessions` table. -/
structure SessionRow where
  id : String
  created_at : Nat
  transcript_nonce : String
  transcript_ct : String

/-- Row of the `speakers` table. -/
structure SpeakerRow where
  id : String
  label : Option String
  created_at : Nat

/-- Row of the `segments` table. -/
structure SegmentRow where
  id : String
  session_id : String
  start_ms : Int
  end_ms : Int
  speaker_label : Option String
  speaker_id : Option String
  text_nonce : String
  text_ct : String

/-- Row of the `embeddings` table. -/
structure EmbeddingRow where
  id : String
  speaker_id : String
  vector_nonce : String
  vector_ct : String
  source_session_id : String
  created_at : Nat

/-- The whole backing store: the `meta` table holds at most the single
`'salt'` key, modelled as `saltRow`. -/
structure DbState where
  saltRow : Option String
  sessions : List SessionRow
  speakers : List SpeakerRow
  segments : List SegmentRow
  embeddings : List EmbeddingRow

/-- Decrypted `Session` record returned by `list_sessions`. -/
structure Session where
  id : String
  created_at : Nat
  transcript : String

/-- Decrypted `SegmentRecord` returned by `list_segments`. -/
structure SegmentRecord where
  id : String
  session_id : String
  start_ms : Int
  end_ms : Int
  speaker_id : Option String
  speaker_label : Option String
  text : String

namespace Db

/-- Model of `Db::persist_salt_if_missing`: when the engine carries a salt
and the `meta` table has no `'salt'` row yet, write it (`save_salt`);
otherwise leave the store untouched. -/
def persist_salt_if_missing (crypto : Crypto) (st : DbState) : DbState :=
  match crypto.salt with
  | some s =>
    match st.saltRow with
    | none => { st with saltRow := some s }
    | some _ => st
  | none => st

/-- Model of `Db::open` on the store state: `init_schema` creates tables
and adds missing columns without touching any row, then the salt is
persisted if missing. -/
def openDb (crypto : Crypto) (st : DbState) : DbState :=
  persist_salt_if_missing crypto st

/-- Model of `Db::insert_session`; the fresh UUID `id`, clock reading
`now` and encryption nonce are explicit parameters. -/
def insert_session (P : CryptoPrims) (crypto : Crypto) (st : DbState)
    (id : String) (now : Nat) (nonce : List Byte) (transcript : String) : DbState :=
  let enc := Crypto.encrypt P crypto nonce (strBytes transcript)
  { st with sessions := st.sessions ++
      [{ id := id, created_at := now, transcript_nonce := enc.1, transcript_ct := enc.2 }] }

/-- Model of `Db::delete_session`: three sequential deletes (session row,
its segments, embeddings whose `source_session_id` matches). -/
def delete_session (st : DbState) (session_id : String) : DbState :=
  { st with
    sessions := st.sessions.filter (fun r => decide (r.id ≠ session_id)),
    segments := st.segments.filter (fun g => decide (g.session_id ≠ session_id)),
    embeddings := st.embeddings.filter (fun e => decide (e.source_session_id ≠ session_id)) }

/-- Model of `Db::update_session_transcript`. -/
def update_session_transcript (P : CryptoPrims) (crypto : Crypto) (st : DbState)
    (session_id : String) (nonce : List Byte) (transcript : String) : DbState :=
  let enc := Crypto.encrypt P crypto nonce (strBytes transcript)
  { st with sessions := st.sessions.map (fun r =>
      if r.id = session_id then
        { r with transcript_nonce := enc.1, transcript_ct := enc.2 }
      else r) }

/-- Model of `Db::insert_segment`. -/
def insert_segment (P : CryptoPrims) (crypto : Crypto) (st : DbState) (id : String)
    (session_id : String) (start_ms end_ms : Int) (speaker_id : Option String)
    (speaker_label : Option String) (nonce : List Byte) (text : String) : DbState :=
  let enc := Crypto.encrypt P crypto nonce (strBytes text)
  { st with segments := st.segments ++
      [{ id := id, session_id := session_id, start_ms := start_ms, end_ms := end_ms,
         speaker_label := speaker_label, speaker_id := speaker_id,
         text_nonce := enc.1, text_ct := enc.2 }] }

/-- Model of `Db::insert_speaker`. -/
def insert_speaker (st : DbState) (id : String) (label : Option String)
    (now : Nat) : DbState :=
  { st with speakers := st.speakers ++ [{ id := id, label := label, created_at := now }] }

/-- Model of `Db::rename_speaker`: update the speaker row, then denormalize
the new label onto every segment whose `speaker_id` references it. -/
def rename_speaker (st : DbState) (speaker_id : String) (new_label : String) : DbState :=
  { st with
    speakers := st.speakers.map (fun s =>
      if s.id = speaker_id then { s with label := some new_label } else s),
    segments := st.segments.map (fun g =>
      if g.speaker_id = some speaker_id then { g with speaker_label := some new_label } else g) }

/-- Model of `Db::delete_speaker`: delete the speaker's embeddings, delete
the speaker row, and null out `speaker_id`/`speaker_label` on segments
that referenced it (`UPDATE segments SET speaker_id=NULL,
speaker_label=NULL WHERE speaker_id=?1`), keeping those segment rows. -/
def delete_speaker (st : DbState) (speaker_id : String) : DbState :=
  { st with
    embeddings := st.embeddings.filter (fun e => decide (e.speaker_id ≠ speaker_id)),
    speakers := st.speakers.filter (fun s => decide (s.id ≠ speaker_id)),
    segments := st.segments.map (fun g =>
      if g.speaker_id = some speaker_id then
        { g with speaker_id := none, speaker_label := none }
      else g) }

/-- Model of `Db::insert_embedding`; the serialized vector bytes (the
`bytemuck` cast of the `f32` slice) are passed as `vectorBytes`. -/
def insert_embedding (P : CryptoPrims) (crypto : Crypto) (st : DbState) (id : String)
    (speaker_id : String) (session_id : String) (nonce : List Byte)
    (vectorBytes : List Byte) (now : Nat) : DbState :=
  let enc := Crypto.encrypt P crypto nonce vectorBytes
  { st with embeddings := st.embeddings ++
      [{ id := id, speaker_id := speaker_id, vector_nonce := enc.1, vector_ct := enc.2,
         source_session_id := session_id, created_at := now }] }

end Db

/-- Row-by-row decrypt-and-build loop shared by the `list_*` operations:
each row is decrypted in order, the first failure aborting the whole
listing, and `mk` builds the output record from the row and its decrypted
payload. -/
def decryptRows {α β : Type} (dec : α → Except String (List Byte))
    (mk : α → List Byte → β) : List α → Except String (List β)
  | [] => Except.ok []
  | r :: rs =>
    match dec r with
    | Except.error e => Except.error e
    | Except.ok b =>
      match decryptRows dec mk rs with
      | Except.error e => Except.error e
      | Except.ok rest => Except.ok (mk r b :: rest)

namespace Db

/-- Model of `Db::list_sessions`: rows ordered newest-created-first, each
transcript decrypted and UTF-8 decoded with `String::from_utf8(..)
.unwrap_or_default()`; the UTF-8 decoder is the explicit parameter
`utf8`. -/
def list_sessions (P : CryptoPrims) (crypto : Crypto)
    (utf8 : List Byte → Option String) (st : DbState) :
    Except String (List Session) :=
  decryptRows
    (fun r => Crypto.decrypt P crypto r.transcript_nonce r.transcript_ct)
    (fun r b => { id := r.id, created_at := r.created_at,
                  transcript := (utf8 b).getD "" })
    (st.sessions.mergeSort (fun a b => decide (b.created_at ≤ a.created_at)))

/-- Model of `Db::list_segments`: rows of the session ordered by `start_ms`
ascending, each text decrypted and UTF-8 decoded with
`String::from_utf8(..).unwrap_or_default()`. -/
def list_segments (P : CryptoPrims) (crypto : Crypto)
    (utf8 : List Byte → Option String) (st : DbState) (session_id : String) :
    Except String (List SegmentRecord) :=
  decryptRows
    (fun r => Crypto.decrypt P crypto r.text_nonce r.text_ct)
    (fun r b => { id := r.id, session_id := r.session_id, start_ms := r.start_ms,
                  end_ms := r.end_ms, speaker_id := r.speaker_id,
                  speaker_label := r.speaker_label, text := (utf8 b).getD "" })
    ((st.segments.filter (fun g => decide (g.session_id = session_id))).mergeSort
      (fun a b => decide (a.start_ms ≤ b.start_ms)))

end Db

/-! ### AudioBucketer and SpeakerResolver matching
(`src/src-tauri/src/main.rs` and `src/src-tauri/src/embedding.rs`) -/

/-- The `TARGET_SPEAKER_MS` constant of `main.rs`. -/
def TARGET_SPEAKER_MS : Nat := 10000

/-- An `AudioClip`: downmixed mono `f32` samples (modelled as reals) and the
sample rate. -/
structure AudioClip where
  samples : List ℝ
  sample_rate : Nat

/-- Model of `AudioClip::duration_ms`; the `u64` product is taken mod
`2 ^ 64` as in release-mode Rust. -/
def AudioClip.duration_ms (a : AudioClip) : Nat :=
  if a.sample_rate = 0 then 0
  else a.samples.length * 1000 % 2 ^ 64 / a.sample_rate

/-- An `ApiSegment` from the transcription provider: provisional cluster
label, millisecond span, text. -/
structure ApiSegment where
  speaker : String
  start_ms : Nat
  end_ms : Nat
  text : String

/-- Saturating `u64` addition. -/
def u64SatAdd (a b : Nat) : Nat :=
  min (a + b) (2 ^ 64 - 1)

/-- The per-segment body of the fix-up loop in `normalize_segments`: repair
an empty or inverted span to one second past its start, then clamp the end
to the clip duration when that duration is positive. -/
def fixEnd (maxEnd : Nat) (seg : ApiSegment) : ApiSegment :=
  let e1 := if seg.end_ms = 0 ∨ seg.end_ms < seg.start_ms
    then u64SatAdd seg.start_ms 1000 else seg.end_ms
  let e2 := if 0 < maxEnd ∧ maxEnd < e1 then maxEnd else e1
  { seg with end_ms := e2 }

/-- Model of `normalize_segments`: synthesize a whole-clip segment when the
provider returned none, fix and clamp each span, and stable-sort by
`start_ms`. -/
def normalize_segments (segments : Option (List ApiSegment)) (transcript : String)
    (audio : AudioClip) : List ApiSegment :=
  let segs0 := segments.getD []
  let segs1 := if segs0.isEmpty then
      [{ speaker := "speaker_0", start_ms := 0,
         end_ms := max audio.duration_ms 1000, text := transcript }]
    else segs0
  (segs1.map (fixEnd audio.duration_ms)).mergeSort
    (fun a b => decide (a.start_ms ≤ b.start_ms))

/-- Sample-index range of a segment: floor for the start, ceiling for the
end, of `ms / 1000 * sample_rate` (the `f64` arithmetic idealized as exact,
so floor and ceiling become the integer divisions below). -/
def segRange (audio : AudioClip) (seg : ApiSegment) : Nat × Nat :=
  (seg.start_ms * audio.sample_rate / 1000,
   (seg.end_ms * audio.sample_rate + 999) / 1000)

/-- The samples a segment contributes before the per-cluster cap: empty if
the span collapses (`end <= start`), otherwise the span clamped to the
clip's sample count. -/
def segSlice (audio : AudioClip) (seg : ApiSegment) : List ℝ :=
  let se := segRange audio seg
  if se.2 ≤ se.1 then []
  else
    let start_idx := min se.1 audio.samples.length
    let end_idx := min se.2 audio.samples.length
    if end_idx ≤ start_idx then []
    else (audio.samples.drop start_idx).take (end_idx - start_idx)

/-- The per-cluster sample cap `target_samples` of
`collect_audio_by_speaker`. -/
def targetSamples (audio : AudioClip) : Nat :=
  max 1 (audio.sample_rate * TARGET_SPEAKER_MS / 1000)

/-- Replace the value stored under `k`, appending a new entry when the key
is absent; models `HashMap::entry(..).or_default()` followed by the
extension, with insertion order standing in for the map's bucket order. -/
def assocSet (m : List (String × List ℝ)) (k : String) (v : List ℝ) :
    List (String × List ℝ) :=
  match m with
  | [] => [(k, v)]
  | (k0, v0) :: rest =>
    if k0 = k then (k, v) :: rest else (k0, v0) :: assocSet rest k v

/-- One iteration of the segment loop of `collect_audio_by_speaker`: skip
collapsed or fully clamped spans, then extend the cluster's buffer by at
most the remaining room below the cap. -/
def collectStep (audio : AudioClip) (m : List (String × List ℝ))
    (seg : ApiSegment) : List (String × List ℝ) :=
  let sl := segSlice audio seg
  if sl.isEmpty then m
  else
    let cur := (m.lookup seg.speaker).getD []
    let remaining := targetSamples audio - cur.length
    if remaining = 0 then m
    else assocSet m seg.speaker (cur ++ sl.take remaining)

/-- Model of `collect_audio_by_speaker`: fold the segment loop over an
initially empty bucket map. -/
def collect_audio_by_speaker (audio : AudioClip) (segments : List ApiSegment) :
    List (String × List ℝ) :=
  segments.foldl (collectStep audio) []

/-- Specification-level description of one cluster's bucket: the
concatenation, in segment order, of the slices of that cluster's segments,
truncated at the cap (first-seen audio wins). -/
def bucketSpec (audio : AudioClip) (segments : List ApiSegment) (k : String) :
    List ℝ :=
  (((segments.filter (fun s => decide (s.speaker = k))).map
      (segSlice audio)).flatten).take (targetSamples audio)

/-- The concatenation, in segment order, of the slices contributed by the
segments of cluster `k`, before the cap is applied (`bucketSpec` is its
truncation at the cap). -/
def sliceCat (audio : AudioClip) (segments : List ApiSegment) (k : String) :
    List ℝ :=
  ((segments.filter (fun s => decide (s.speaker = k))).map (segSlice audio)).flatten

/-- Model of `cosine_similarity` from `embedding.rs`, over exact reals: dot
product divided by the product of Euclidean norms, zero when either norm is
zero. -/
noncomputable def cosine_similarity (a b : List ℝ) : ℝ :=
  let dot := ((a.zip b).map (fun p => p.1 * p.2)).sum
  let norm_a := Real.sqrt ((a.map (fun x => x * x)).sum)
  let norm_b := Real.sqrt ((b.map (fun x => x * x)).sum)
  if norm_a = 0 ∨ norm_b = 0 then 0 else dot / (norm_a * norm_b)

/-- The `MATCH_THRESHOLD` constant of `main.rs` (the `f32` literal `0.78`
modelled as the real number 0.78). -/
noncomputable def MATCH_THRESHOLD : ℝ := 78 / 100

/-- A `StoredEmbedding` as loaded by `list_embeddings`. -/
structure StoredEmbedding where
  id : String
  speaker_id : String
  speaker_label : Option String
  vector : List ℝ
  source_session_id : String
  created_at : Nat

/-- The scan loop of `best_match`: skip stored embeddings whose vector
length differs from the query's; replace the running best only on a
strictly higher score (`score <= current` keeps the earlier candidate). -/
noncomputable def bestFoldAux (embedding : List ℝ) :
    Option (StoredEmbedding × ℝ) → List StoredEmbedding → Option (StoredEmbedding × ℝ)
  | best, [] => best
  | best, record :: rest =>
    if record.vector.length ≠ embedding.length then bestFoldAux embedding best rest
    else
      let score := cosine_similarity embedding record.vector
      match best with
      | some (r0, current) =>
        if score ≤ current then bestFoldAux embedding (some (r0, current)) rest
        else bestFoldAux embedding (some (record, score)) rest
      | none => bestFoldAux embedding (some (record, score)) rest

/-- The completed scan of `best_match`, before the threshold check. -/
noncomputable def bestFold (embedding : List ℝ) (known : List StoredEmbedding) :
    Option (StoredEmbedding × ℝ) :=
  bestFoldAux embedding none known

/-- Model of `best_match`: the scan result when its score reaches
`MATCH_THRESHOLD`, `none` otherwise. -/
noncomputable def best_match (embedding : List ℝ) (known : List StoredEmbedding) :
    Option (StoredEmbedding × ℝ) :=
  match bestFold embedding known with
  | some (rec, score) =>
    if MATCH_THRESHOLD ≤ score then some (rec, score) else none
  | none => none

/-- Stored embeddings eligible for the scan: those whose vector length
equals the query's. -/
def eligibleFor (embedding : List ℝ) (known : List StoredEmbedding) :
    List StoredEmbedding :=
  known.filter (fun r => decide (r.vector.length = embedding.length))

/-! ### Concrete instances used by witnesses and counterexamples -/

/-- A 3-second clip: three zero samples at 1 Hz. -/
noncomputable def cexClip : AudioClip :=
  { samples := [0, 0, 0], sample_rate := 1 }

/-- A provider segment starting beyond the end of `cexClip`. -/
def cexSeg : ApiSegment :=
  { speaker := "s0", start_ms := 5000, end_ms := 6000, text := "t" }

/-- A well-formed provider segment inside `cexClip`. -/
def wSeg : ApiSegment :=
  { speaker := "a", start_ms := 100, end_ms := 200, text := "x" }

/-- Query vector for the threshold-boundary instances. -/
noncomputable def qBoundary : List ℝ := [1, 0]

/-- Stored embedding whose cosine similarity to `qBoundary` is exactly
0.78: its norm is √(39² + 979) = 50 and the dot product is 39. -/
noncomputable def rAtThreshold : StoredEmbedding :=
  { id := "e1", speaker_id := "sp1", speaker_label := none,
    vector := [39, Real.sqrt 979], source_session_id := "ss", created_at := 0 }

/-- Stored embedding whose cosine similarity to `qBoundary` is exactly
0.7799: its norm is √(7799² + 39175599) = 10000 and the dot product
is 7799. -/
noncomputable def rBelowThreshold : StoredEmbedding :=
  { id := "e2", speaker_id := "sp2", speaker_label := none,
    vector := [7799, Real.sqrt 39175599], source_session_id := "ss", created_at := 0 }

/-- Query vector for the tie-break instance. -/
noncomputable def qTie : List ℝ := [1]

/-- First stored embedding of the tie-break instance (similarity 1). -/
noncomputable def seTieA : StoredEmbedding :=
  { id := "a", speaker_id := "sa", speaker_label := none,
    vector := [2], source_session_id := "ss", created_at := 0 }

/-- Second stored embedding of the tie-break instance (similarity also 1). -/
noncomputable def seTieB : StoredEmbedding :=
  { id := "b", speaker_id := "sb", speaker_label := none,
    vector := [3], source_session_id := "ss", created_at := 0 }

/-- Stored embedding of mismatched vector length, to be skipped by the
scan. -/
noncomputable def seTieC : StoredEmbedding :=
  { id := "c", speaker_id := "sc", speaker_label := none,
    vector := [1, 0], source_session_id := "ss", created_at := 0 }

/-- Concrete primitives: a failing KDF, pass-through salt validation, and
an identity AEAD (which trivially satisfies the AEAD round-trip law). -/
def trivialPrims : CryptoPrims :=
  { kdf := fun _ _ => Except.error "kdf failed",
    parseSalt := fun s => some s,
    aeadEnc := fun _ _ d => d,
    aeadDec := fun _ _ d => Except.ok d }

/-- A keyed engine instance. -/
def keyedCrypto : Crypto :=
  { key := some [⟨7, by omega⟩], salt := some "salt" }

/-- An unkeyed engine instance. -/
def nullCrypto : Crypto :=
  { key := none, salt := none }

/-- A store state that already has a persisted salt row. -/
def stWithSalt : DbState :=
  { saltRow := some "v", sessions := [], speakers := [], segments := [],
    embeddings := [] }

/-- The byte 0xFF, not valid UTF-8 on its own. -/
def byteFF : Byte := ⟨255, by omega⟩

/-- A session row whose stored payload is the single byte 0xFF. -/
def sessRowBad : SessionRow :=
  { id := "s1", created_at := 0, transcript_nonce := "",
    transcript_ct := b64encode [byteFF] }

/-- A segment row whose stored payload is the single byte 0xFF. -/
def segRowBad : SegmentRow :=
  { id := "g1", session_id := "sess", start_ms := 0, end_ms := 1,
    speaker_label := none, speaker_id := none, text_nonce := "",
    text_ct := b64encode [byteFF] }

/-- A store containing exactly the two bad-payload rows above. -/
def stBadUtf8 : DbState :=
  { saltRow := none, sessions := [sessRowBad], speakers := [],
    segments := [segRowBad], embeddings := [] }

/-- A UTF-8 decoder that rejects every byte list (every payload is treated
as invalid UTF-8). -/
def noUtf8 : List Byte → Option String := fun _ => none

/-- A one-sample clip at 1 Hz. -/
noncomputable def clip8 : AudioClip := { samples := [0], sample_rate := 1 }

/-- A one-second segment over `clip8`. -/
def seg8 : ApiSegment := { speaker := "s", start_ms := 0, end_ms := 1000, text := "" }

/-! ### Helper lemmas: base64 round-trip -/

theorem b64Val_b64Char : ∀ n : Fin 64, b64Val (b64Char n.val) = some n := by decide

theorem b64Char_ne_pad : ∀ n : Fin 64, b64Char n.val ≠ '=' := by decide

theorem b64Val_b64Char_nat (n : Nat) (h : n < 64) :
    b64Val (b64Char n) = some ⟨n, h⟩ :=
  b64Val_b64Char ⟨n, h⟩

theorem b64Char_ne_pad_nat (n : Nat) (h : n < 64) : b64Char n ≠ '=' :=
  b64Char_ne_pad ⟨n, h⟩

theorem byte_mk_eq {n : Nat} {h : n < 256} {a : Byte} (hv : n = a.val) :
    (⟨n, h⟩ : Byte) = a :=
  Fin.ext hv

theorem b64_roundtrip_chunks :
    ∀ l : List Byte, b64DecodeChunks (b64EncodeChunks l) = some l
  | [] => rfl
  | [a] => by
    have h1 := a.isLt
    rw [b64EncodeChunks, b64DecodeChunks,
      b64Val_b64Char_nat (a.val / 4) (by omega),
      b64Val_b64Char_nat (a.val % 4 * 16) (by omega)]
    simp only [Option.some_bind, Fin.val_mk, if_true, true_and]
    have hc : a.val % 4 * 16 % 16 = 0 := by omega
    rw [if_pos hc]
    simp only [Option.some.injEq, List.cons.injEq, and_true]
    exact byte_mk_eq (by omega)
  | [a, b] => by
    have h1 := a.isLt
    have h2 := b.isLt
    rw [b64EncodeChunks, b64DecodeChunks,
      b64Val_b64Char_nat (a.val / 4) (by omega),
      b64Val_b64Char_nat (a.val % 4 * 16 + b.val / 16) (by omega)]
    simp only [Option.some_bind, Fin.val_mk]
    rw [if_neg (b64Char_ne_pad_nat (b.val % 16 * 4) (by omega)),
      b64Val_b64Char_nat (b.val % 16 * 4) (by omega)]
    simp only [Option.some_bind, Fin.val_mk, if_true, true_and]
    have hc : b.val % 16 * 4 % 4 = 0 := by omega
    rw [if_pos hc]
    simp only [Option.some.injEq, List.cons.injEq, and_true]
    exact ⟨byte_mk_eq (by omega), byte_mk_eq (by omega)⟩
  | [a, b, c] => by
    have h1 := a.isLt
    have h2 := b.isLt
    have h3 := c.isLt
    rw [b64EncodeChunks, b64EncodeChunks, b64DecodeChunks,
      b64Val_b64Char_nat (a.val / 4) (by omega),
      b64Val_b64Char_nat (a.val % 4 * 16 + b.val / 16) (by omega)]
    simp only [Option.some_bind, Fin.val_mk]
    rw [if_neg (b64Char_ne_pad_nat (b.val % 16 * 4 + c.val / 64) (by omega)),
      b64Val_b64Char_nat (b.val % 16 * 4 + c.val / 64) (by omega)]
    simp only [Option.some_bind, Fin.val_mk]
    rw [if_neg (b64Char_ne_pad_nat (c.val % 64) (by omega)),
      b64Val_b64Char_nat (c.val % 64) (by omega)]
    simp only [Option.some_bind, Fin.val_mk]
    rw [show b64DecodeChunks [] = some [] from rfl]
    simp only [Option.map_some', Option.some.injEq, List.cons.injEq, and_true]
    exact ⟨byte_mk_eq (by omega), byte_mk_eq (by omega), byte_mk_eq (by omega)⟩
  | a :: b :: c :: d :: rest => by
    have h1 := a.isLt
    have h2 := b.isLt
    have h3 := c.isLt
    rw [b64EncodeChunks, b64DecodeChunks,
      b64Val_b64Char_nat (a.val / 4) (by omega),
      b64Val_b64Char_nat (a.val % 4 * 16 + b.val / 16) (by omega)]
    simp only [Option.some_bind, Fin.val_mk]
    rw [if_neg (b64Char_ne_pad_nat (b.val % 16 * 4 + c.val / 64) (by omega)),
      b64Val_b64Char_nat (b.val % 16 * 4 + c.val / 64) (by omega)]
    simp only [Option.some_bind, Fin.val_mk]
    rw [if_neg (b64Char_ne_pad_nat (c.val % 64) (by omega)),
      b64Val_b64Char_nat (c.val % 64) (by omega)]
    simp only [Option.some_bind, Fin.val_mk]
    rw [b64_roundtrip_chunks (d :: rest)]
    simp only [Option.map_some', Option.some.injEq, List.cons.injEq, and_true, true_and]
    exact ⟨byte_mk_eq (by omega), byte_mk_eq (by omega), byte_mk_eq (by omega)⟩

theorem b64decodeE_encode (l : List Byte) : b64decodeE (b64encode l) = Except.ok l := by
  have h : (b64encode l).toList = b64EncodeChunks l := rfl
  rw [b64decodeE, h, b64_roundtrip_chunks]

/-! ### C3: CryptoEngine round-trip -/

/-- C3: for every byte payload and every CryptoEngine instance, keyed or
unkeyed, `decrypt` applied to the `(nonce, ciphertext)` pair produced by
`encrypt` succeeds and returns exactly the payload. The AEAD primitive is
quantified over all implementations satisfying its round-trip contract. -/
theorem crypto_roundtrip (P : CryptoPrims)
    (haead : ∀ k n d, P.aeadDec k n (P.aeadEnc k n d) = Except.ok d)
    (c : Crypto) (nonce data : List Byte) :
    Crypto.decrypt P c (Crypto.encrypt P c nonce data).1
      (Crypto.encrypt P c nonce data).2 = Except.ok data := by
  rcases hk : c.key with _ | key
  · simp only [Crypto.encrypt, Crypto.decrypt, hk, b64decodeE_encode]
  · simp only [Crypto.encrypt, Crypto.decrypt, hk, b64decodeE_encode]
    exact haead key nonce data

/-- Witness for C3: the round-trip at a keyed and at an unkeyed engine,
payload `[0xFF]`, with the identity AEAD (which satisfies the AEAD
contract definitionally). -/
theorem crypto_roundtrip_witness :
    Crypto.decrypt trivialPrims keyedCrypto
        (Crypto.encrypt trivialPrims keyedCrypto [byteFF] [byteFF]).1
        (Crypto.encrypt trivialPrims keyedCrypto [byteFF] [byteFF]).2 =
      Except.ok [byteFF]
    ∧ Crypto.decrypt trivialPrims nullCrypto
        (Crypto.encrypt trivialPrims nullCrypto [] [byteFF]).1
        (Crypto.encrypt trivialPrims nullCrypto [] [byteFF]).2 =
      Except.ok [byteFF] :=
  ⟨crypto_roundtrip trivialPrims (fun _ _ _ => rfl) keyedCrypto [byteFF] [byteFF],
   crypto_roundtrip trivialPrims (fun _ _ _ => rfl) nullCrypto [] [byteFF]⟩

/-! ### C9: Crypto::new discards KDF failure -/

/-- C9: constructing a CryptoEngine with a passphrase always yields a keyed
engine (no error is reported), and when the internal KDF call fails the
key is the untouched zero-initialized 32-byte buffer. -/
theorem crypto_new_total_zero_key (P : CryptoPrims) (pw : String)
    (salt : Option String) (freshSalt fallbackSalt : String) :
    (Crypto.new P (some pw) salt freshSalt fallbackSalt).key.isSome = true
    ∧ (∀ msg, P.kdf (strBytes pw)
          (strBytes ((P.parseSalt (salt.getD freshSalt)).getD fallbackSalt)) =
          Except.error msg →
        (Crypto.new P (some pw) salt freshSalt fallbackSalt).key =
          some (List.replicate 32 (0 : Byte))) := by
  constructor
  · simp [Crypto.new]
  · intro msg hmsg
    simp [Crypto.new, hmsg]

/-- Witness for C9: with a primitive set whose KDF always fails, the engine
is still built and its key is the all-zero 32-byte key. -/
theorem crypto_new_total_zero_key_witness :
    (Crypto.new trivialPrims (some "pw") none "fresh" "fb").key.isSome = true
    ∧ (Crypto.new trivialPrims (some "pw") none "fresh" "fb").key =
        some (List.replicate 32 (0 : Byte)) :=
  ⟨(crypto_new_total_zero_key trivialPrims "pw" none "fresh" "fb").1,
   (crypto_new_total_zero_key trivialPrims "pw" none "fresh" "fb").2 "kdf failed" rfl⟩

/-! ### C4: the persisted salt is write-once -/

/-- C4: `open` persists the salt exactly when the engine is keyed (for the
engines the program constructs, keyed and salt-carrying coincide) and no
salt row exists yet; an existing salt row is never overwritten by `open`,
and no other store operation touches the salt row. -/
theorem salt_write_once (crypto : Crypto)
    (hks : crypto.key.isSome = crypto.salt.isSome) (st : DbState) :
    ((Db.openDb crypto st).saltRow =
      if crypto.key.isSome = true ∧ st.saltRow = none then crypto.salt else st.saltRow)
    ∧ (∀ v, st.saltRow = some v → (Db.openDb crypto st).saltRow = some v)
    ∧ (∀ P id now nonce t,
        (Db.insert_session P crypto st id now nonce t).saltRow = st.saltRow)
    ∧ (∀ P sid nonce t,
        (Db.update_session_transcript P crypto st sid nonce t).saltRow = st.saltRow)
    ∧ (∀ sid, (Db.delete_session st sid).saltRow = st.saltRow)
    ∧ (∀ id label now, (Db.insert_speaker st id label now).saltRow = st.saltRow)
    ∧ (∀ id lab, (Db.rename_speaker st id lab).saltRow = st.saltRow)
    ∧ (∀ id, (Db.delete_speaker st id).saltRow = st.saltRow)
    ∧ (∀ P id sid sms ems spk lab nonce t,
        (Db.insert_segment P crypto st id sid sms ems spk lab nonce t).saltRow = st.saltRow)
    ∧ (∀ P id spk sid nonce vb now,
        (Db.insert_embedding P crypto st id spk sid nonce vb now).saltRow = st.saltRow)
    ∧ (∀ (P : CryptoPrims) (pw : String) (slt : Option String) (fs fb : String),
        (Crypto.new P (some pw) slt fs fb).key.isSome =
          (Crypto.new P (some pw) slt fs fb).salt.isSome)
    ∧ (∀ (P : CryptoPrims) (fs fb : String),
        (Crypto.new P none none fs fb).key.isSome =
          (Crypto.new P none none fs fb).salt.isSome) := by
  refine ⟨?_, ?_, ?_, ?_, ?_, ?_, ?_, ?_, ?_, ?_, ?_, ?_⟩
  · rcases hcs : crypto.salt with _ | s
    · have hk : crypto.key.isSome = false := by rw [hks, hcs]; rfl
      simp [Db.openDb, Db.persist_salt_if_missing, hcs, hk]
    · have hk : crypto.key.isSome = true := by rw [hks, hcs]; rfl
      rcases hsr : st.saltRow with _ | v
      · simp [Db.openDb, Db.persist_salt_if_missing, hcs, hsr, hk]
      · simp [Db.openDb, Db.persist_salt_if_missing, hcs, hsr, hk]
  · intro v hv
    rcases hcs : crypto.salt with _ | s <;>
      simp [Db.openDb, Db.persist_salt_if_missing, hcs, hv]
  · intro P id now nonce t; simp [Db.insert_session]
  · intro P sid nonce t; simp [Db.update_session_transcript]
  · intro sid; simp [Db.delete_session]
  · intro id label now; simp [Db.insert_speaker]
  · intro id lab; simp [Db.rename_speaker]
  · intro id; simp [Db.delete_speaker]
  · intro P id sid sms ems spk lab nonce t; simp [Db.insert_segment]
  · intro P id spk sid nonce vb now; simp [Db.insert_embedding]
  · intro P pw slt fs fb; simp [Crypto.new]
  · intro P fs fb; simp [Crypto.new]

/-- Witness for C4: a keyed engine opened over a store that already has a
persisted salt row leaves that row unchanged. -/
theorem salt_write_once_witness :
    keyedCrypto.key.isSome = keyedCrypto.salt.isSome
    ∧ (Db.openDb keyedCrypto stWithSalt).saltRow = some "v" :=
  ⟨rfl, (salt_write_once keyedCrypto rfl stWithSalt).2.1 "v" rfl⟩

/-! ### C5: delete_speaker semantics -/

/-- C5: `delete_speaker id` deletes exactly the embeddings whose
`speaker_id` is `id` and exactly the speaker row with that id, and maps
each segment row in place: a segment that referenced `id` keeps its row
with `speaker_id` and `speaker_label` nulled, every other segment row is
unchanged; sessions and the salt row are untouched. -/
theorem delete_speaker_spec (st : DbState) (id : String) :
    (∀ e, e ∈ (Db.delete_speaker st id).embeddings ↔
      e ∈ st.embeddings ∧ e.speaker_id ≠ id)
    ∧ (∀ s, s ∈ (Db.delete_speaker st id).speakers ↔ s ∈ st.speakers ∧ s.id ≠ id)
    ∧ (Db.delete_speaker st id).segments.length = st.segments.length
    ∧ (∀ i : Nat, (Db.delete_speaker st id).segments[i]? = (st.segments[i]?).map
        (fun g : SegmentRow =>
          if g.speaker_id = some id then
            { g with speaker_id := none, speaker_label := none }
          else g))
    ∧ (Db.delete_speaker st id).sessions = st.sessions
    ∧ (Db.delete_speaker st id).saltRow = st.saltRow := by
  refine ⟨?_, ?_, ?_, ?_, rfl, rfl⟩
  · intro e
    simp [Db.delete_speaker, List.mem_filter]
  · intro s
    simp [Db.delete_speaker, List.mem_filter]
  · simp [Db.delete_speaker]
  · intro i
    simp [Db.delete_speaker, List.getElem?_map]

/-! ### C10: invalid UTF-8 payloads list as empty strings -/

/-- Totality of the shared decrypt-and-build loop when every row decrypts:
the listing succeeds, has one output per row, and each output is built by
`mk` from its row's decrypted payload. -/
theorem decryptRows_total {α β : Type} (dec : α → Except String (List Byte))
    (mk : α → List Byte → β) :
    ∀ rows : List α, (∀ r ∈ rows, ∃ b, dec r = Except.ok b) →
      ∃ out, decryptRows dec mk rows = Except.ok out
        ∧ out.length = rows.length
        ∧ ∀ x ∈ out, ∃ r, r ∈ rows ∧ ∃ b, dec r = Except.ok b ∧ x = mk r b
  | [] => fun _ => ⟨[], rfl, rfl, by simp⟩
  | r :: rs => fun h => by
    obtain ⟨b, hb⟩ := h r (by simp)
    obtain ⟨out, hout, hlen, hmem⟩ :=
      decryptRows_total dec mk rs (fun q hq => h q (by simp [hq]))
    refine ⟨mk r b :: out, ?_, by simp [hlen], ?_⟩
    · simp only [decryptRows, hb, hout]
    · intro x hx
      rcases List.mem_cons.mp hx with hx | hx
      · exact ⟨r, by simp, b, hb, hx⟩
      · obtain ⟨q, hq, b', hb', hxq⟩ := hmem x hx
        exact ⟨q, by simp [hq], b', hb', hxq⟩

/-- C10: in `list_sessions` and `list_segments`, when every relevant row's
payload decrypts, the listing succeeds with one output per row; each output
field is the `unwrap_or_default` UTF-8 decoding of the decrypted bytes, so
a payload that is not valid UTF-8 yields the empty string rather than a
failure. -/
theorem list_ops_invalid_utf8 (P : CryptoPrims) (crypto : Crypto)
    (utf8 : List Byte → Option String) (st : DbState) (sid : String) :
    ((∀ r ∈ st.sessions, ∃ b,
        Crypto.decrypt P crypto r.transcript_nonce r.transcript_ct = Except.ok b) →
      ∃ out, Db.list_sessions P crypto utf8 st = Except.ok out
        ∧ out.length = st.sessions.length
        ∧ ∀ x ∈ out, ∃ r b, r ∈ st.sessions
            ∧ Crypto.decrypt P crypto r.transcript_nonce r.transcript_ct = Except.ok b
            ∧ x.transcript = (utf8 b).getD ""
            ∧ (utf8 b = none → x.transcript = ""))
    ∧ ((∀ r ∈ st.segments, r.session_id = sid → ∃ b,
        Crypto.decrypt P crypto r.text_nonce r.text_ct = Except.ok b) →
      ∃ out, Db.list_segments P crypto utf8 st sid = Except.ok out
        ∧ out.length = (st.segments.filter (fun g => decide (g.session_id = sid))).length
        ∧ ∀ x ∈ out, ∃ r b, r ∈ st.segments ∧ r.session_id = sid
            ∧ Crypto.decrypt P crypto r.text_nonce r.text_ct = Except.ok b
            ∧ x.text = (utf8 b).getD ""
            ∧ (utf8 b = none → x.text = "")) := by
  constructor
  · intro h
    have hperm := List.mergeSort_perm st.sessions
      (fun a b => decide (b.created_at ≤ a.created_at))
    obtain ⟨out, hout, hlen, hmem⟩ := decryptRows_total
      (fun r => Crypto.decrypt P crypto r.transcript_nonce r.transcript_ct)
      (fun r b => ({ id := r.id, created_at := r.created_at,
                       transcript := (utf8 b).getD "" } : Session))
      (st.sessions.mergeSort (fun a b => decide (b.created_at ≤ a.created_at)))
      (fun r hr => h r (hperm.mem_iff.mp hr))
    refine ⟨out, hout, by rw [hlen, List.length_mergeSort], ?_⟩
    intro x hx
    obtain ⟨r, hr, b, hb, hxq⟩ := hmem x hx
    exact ⟨r, b, hperm.mem_iff.mp hr, hb, by rw [hxq], fun hn => by rw [hxq]; simp [hn]⟩
  · intro h
    have hperm := List.mergeSort_perm
      (st.segments.filter (fun g => decide (g.session_id = sid)))
      (fun a b => decide (a.start_ms ≤ b.start_ms))
    obtain ⟨out, hout, hlen, hmem⟩ := decryptRows_total
      (fun r => Crypto.decrypt P crypto r.text_nonce r.text_ct)
      (fun r b => ({ id := r.id, session_id := r.session_id, start_ms := r.start_ms,
                       end_ms := r.end_ms, speaker_id := r.speaker_id,
                       speaker_label := r.speaker_label,
                       text := (utf8 b).getD "" } : SegmentRecord))
      ((st.segments.filter (fun g => decide (g.session_id = sid))).mergeSort
        (fun a b => decide (a.start_ms ≤ b.start_ms)))
      (fun r hr => by
        have hrf := hperm.mem_iff.mp hr
        have hrm := List.mem_filter.mp hrf
        exact h r hrm.1 (by simpa using hrm.2))
    refine ⟨out, hout, by rw [hlen, List.length_mergeSort], ?_⟩
    intro x hx
    obtain ⟨r, hr, b, hb, hxq⟩ := hmem x hx
    have hrm := List.mem_filter.mp (hperm.mem_iff.mp hr)
    exact ⟨r, b, hrm.1, by simpa using hrm.2, hb, by rw [hxq],
      fun hn => by rw [hxq]; simp [hn]⟩

/-- Witness for C10: a store whose only session row and only segment row
hold the single non-UTF-8 byte 0xFF lists successfully, with empty
transcript and text fields. -/
theorem list_ops_invalid_utf8_witness :
    (∃ out, Db.list_sessions trivialPrims nullCrypto noUtf8 stBadUtf8 = Except.ok out
      ∧ out.length = 1 ∧ ∀ x ∈ out, x.transcript = "")
    ∧ (∃ out, Db.list_segments trivialPrims nullCrypto noUtf8 stBadUtf8 "sess" = Except.ok out
      ∧ out.length = 1 ∧ ∀ x ∈ out, x.text = "") := by
  constructor
  · obtain ⟨out, hok, hlen, hmem⟩ :=
      (list_ops_invalid_utf8 trivialPrims nullCrypto noUtf8 stBadUtf8 "sess").1
        (by
          intro r hr
          refine ⟨[byteFF], ?_⟩
          simp only [stBadUtf8, List.mem_singleton] at hr
          subst hr
          simp [Crypto.decrypt, nullCrypto, sessRowBad, b64decodeE_encode])
    refine ⟨out, hok, by simpa [stBadUtf8] using hlen, fun x hx => ?_⟩
    obtain ⟨r, b, _, _, _, hnone⟩ := hmem x hx
    exact hnone rfl
  · obtain ⟨out, hok, hlen, hmem⟩ :=
      (list_ops_invalid_utf8 trivialPrims nullCrypto noUtf8 stBadUtf8 "sess").2
        (by
          intro r hr _
          refine ⟨[byteFF], ?_⟩
          simp only [stBadUtf8, List.mem_singleton] at hr
          subst hr
          simp [Crypto.decrypt, nullCrypto, segRowBad, b64decodeE_encode])
    refine ⟨out, hok, by simp [stBadUtf8, segRowBad] at hlen ⊢; omega, fun x hx => ?_⟩
    obtain ⟨r, b, _, _, _, _, hnone⟩ := hmem x hx
    exact hnone rfl

/-! ### C7: cosine similarity properties -/

theorem dot_self_eq_sumSq (v : List ℝ) :
    ((v.zip v).map (fun p => p.1 * p.2)).sum = (v.map (fun x => x * x)).sum := by
  induction v with
  | nil => simp
  | cons x xs ih => simp [ih]

theorem sumSq_nonneg (v : List ℝ) : 0 ≤ (v.map (fun x => x * x)).sum := by
  apply List.sum_nonneg
  intro y hy
  obtain ⟨x, _, rfl⟩ := List.mem_map.mp hy
  exact mul_self_nonneg x

theorem dot_comm (a b : List ℝ) :
    ((a.zip b).map (fun p => p.1 * p.2)).sum =
      ((b.zip a).map (fun p => p.1 * p.2)).sum := by
  induction a generalizing b with
  | nil => cases b <;> simp
  | cons x xs ih =>
    cases b with
    | nil => simp
    | cons y ys => simp [ih ys, mul_comm]

/-- C7: under the exact-real model of the `f32` arithmetic,
`cosine_similarity` is 1 on any vector paired with itself whose sum of
squares is non-zero (a non-zero vector), 0 against the zero vector of the
same length, and symmetric in its arguments. -/
theorem cosine_properties (v a b : List ℝ)
    (hv : (v.map (fun x => x * x)).sum ≠ 0) :
    cosine_similarity v v = 1
    ∧ cosine_similarity v (List.replicate v.length 0) = 0
    ∧ cosine_similarity a b = cosine_similarity b a := by
  refine ⟨?_, ?_, ?_⟩
  · have hpos : 0 < (v.map (fun x => x * x)).sum :=
      lt_of_le_of_ne (sumSq_nonneg v) (Ne.symm hv)
    have hs : Real.sqrt ((v.map (fun x => x * x)).sum) ≠ 0 := by
      rw [Ne, Real.sqrt_eq_zero']
      exact not_le.mpr hpos
    simp only [cosine_similarity]
    rw [if_neg (by intro hor; exact hs (hor.elim id id))]
    rw [dot_self_eq_sumSq, Real.mul_self_sqrt (sumSq_nonneg v)]
    exact div_self hv
  · have hz : ((List.replicate v.length (0 : ℝ)).map (fun x => x * x)).sum = 0 := by
      simp
    simp only [cosine_similarity]
    rw [if_pos (Or.inr (by rw [hz, Real.sqrt_zero]))]
  · simp only [cosine_similarity]
    rw [dot_comm]
    exact if_congr or_comm rfl (by rw [mul_comm])

/-- Witness for C7 at `v = [2]`, `a = [3]`, `b = [5]`. -/
theorem cosine_properties_witness :
    ((([2] : List ℝ).map (fun x => x * x)).sum ≠ 0)
    ∧ (cosine_similarity [2] [2] = 1
      ∧ cosine_similarity [2] (List.replicate ([2] : List ℝ).length 0) = 0
      ∧ cosine_similarity [3] [5] = cosine_similarity [5] [3]) := by
  have h : (([2] : List ℝ).map (fun x => x * x)).sum ≠ 0 := by norm_num
  exact ⟨h, cosine_properties [2] [3] [5] h⟩

/-! ### C2: match threshold boundary -/

theorem cos_rAt : cosine_similarity qBoundary rAtThreshold.vector = 39 / 50 := by
  have h979 : Real.sqrt 979 * Real.sqrt 979 = 979 :=
    Real.mul_self_sqrt (by norm_num)
  have hdot : ((qBoundary.zip rAtThreshold.vector).map (fun p => p.1 * p.2)).sum = 39 := by
    simp [qBoundary, rAtThreshold]
  have hA : ((qBoundary.map (fun x => x * x)).sum) = 1 := by
    simp [qBoundary]
  have hB : ((rAtThreshold.vector.map (fun x => x * x)).sum) = 2500 := by
    simp [rAtThreshold]
    nlinarith [h979]
  have h2500 : Real.sqrt 2500 = 50 := by
    rw [show (2500 : ℝ) = 50 ^ 2 by norm_num, Real.sqrt_sq (by norm_num)]
  simp only [cosine_similarity]
  rw [hdot, hA, hB, Real.sqrt_one, h2500]
  rw [if_neg (by norm_num)]
  norm_num

theorem cos_rBelow : cosine_similarity qBoundary rBelowThreshold.vector = 7799 / 10000 := by
  have hms : Real.sqrt 39175599 * Real.sqrt 39175599 = 39175599 :=
    Real.mul_self_sqrt (by norm_num)
  have hdot : ((qBoundary.zip rBelowThreshold.vector).map (fun p => p.1 * p.2)).sum = 7799 := by
    simp [qBoundary, rBelowThreshold]
  have hA : ((qBoundary.map (fun x => x * x)).sum) = 1 := by
    simp [qBoundary]
  have hB : ((rBelowThreshold.vector.map (fun x => x * x)).sum) = 100000000 := by
    simp [rBelowThreshold]
    nlinarith [hms]
  have hsq : Real.sqrt 100000000 = 10000 := by
    rw [show (100000000 : ℝ) = 10000 ^ 2 by norm_num, Real.sqrt_sq (by norm_num)]
  simp only [cosine_similarity]
  rw [hdot, hA, hB, Real.sqrt_one, hsq]
  rw [if_neg (by norm_num)]
  norm_num

theorem bestFold_single (e : List ℝ) (r : StoredEmbedding)
    (h : ¬ r.vector.length ≠ e.length) :
    bestFold e [r] = some (r, cosine_similarity e r.vector) := by
  simp only [bestFold, bestFoldAux, if_neg h]

theorem best_match_at :
    best_match qBoundary [rAtThreshold] = some (rAtThreshold, 39 / 50) := by
  have hb : bestFold qBoundary [rAtThreshold] = some (rAtThreshold, 39 / 50) := by
    rw [bestFold_single qBoundary rAtThreshold (by simp [qBoundary, rAtThreshold]),
      cos_rAt]
  simp only [best_match, hb]
  rw [if_pos (by rw [MATCH_THRESHOLD]; norm_num)]

theorem best_match_below :
    best_match qBoundary [rBelowThreshold] = none := by
  have hb : bestFold qBoundary [rBelowThreshold] = some (rBelowThreshold, 7799 / 10000) := by
    rw [bestFold_single qBoundary rBelowThreshold (by simp [qBoundary, rBelowThreshold]),
      cos_rBelow]
  simp only [best_match, hb]
  rw [if_neg (by rw [MATCH_THRESHOLD]; norm_num)]

/-- C2: `best_match` returns a result exactly when the scan produced a best
candidate whose score is at or above `MATCH_THRESHOLD` (so a strictly lower
best score yields `none` and the resolver mints a new speaker instead);
moreover a stored embedding at similarity exactly 0.78 matches, and one at
similarity 0.7799 does not. -/
theorem best_match_threshold_iff :
    (∀ (e : List ℝ) (known : List StoredEmbedding) (p : StoredEmbedding × ℝ),
      best_match e known = some p ↔
        bestFold e known = some p ∧ MATCH_THRESHOLD ≤ p.2)
    ∧ best_match qBoundary [rAtThreshold] = some (rAtThreshold, 39 / 50)
    ∧ best_match qBoundary [rBelowThreshold] = none := by
  refine ⟨?_, best_match_at, best_match_below⟩
  intro e known p
  rcases hbf : bestFold e known with _ | q
  · simp [best_match, hbf]
  · obtain ⟨r, s⟩ := q
    by_cases hτ : MATCH_THRESHOLD ≤ s
    · simp only [best_match, hbf, if_pos hτ]
      constructor
      · intro hp
        injection hp with hp
        exact ⟨by rw [hp], by rw [← hp]; exact hτ⟩
      · rintro ⟨hp, _⟩
        injection hp with hp
        rw [hp]
    · simp only [best_match, hbf, if_neg hτ]
      constructor
      · intro hp; cases hp
      · rintro ⟨hp, hle⟩
        injection hp with hp
        rw [← hp] at hle
        exact absurd hle hτ

/-! ### C6: the scan keeps the strictly best score, first on ties -/

theorem bestFoldAux_acc_spec (e : List ℝ) :
    ∀ (known : List StoredEmbedding) (r0 : StoredEmbedding) (s0 : ℝ),
      (bestFoldAux e (some (r0, s0)) known = some (r0, s0)
        ∧ ∀ x ∈ eligibleFor e known, cosine_similarity e x.vector ≤ s0)
      ∨ (∃ r1 s1 pre post,
          bestFoldAux e (some (r0, s0)) known = some (r1, s1)
          ∧ s0 < s1 ∧ s1 = cosine_similarity e r1.vector
          ∧ eligibleFor e known = pre ++ r1 :: post
          ∧ (∀ x ∈ pre, cosine_similarity e x.vector < s1)
          ∧ (∀ x ∈ eligibleFor e known, cosine_similarity e x.vector ≤ s1))
  | [], r0, s0 => Or.inl ⟨rfl, by simp [eligibleFor]⟩
  | rec :: rest, r0, s0 => by
    by_cases hlen : rec.vector.length ≠ e.length
    · have helig : eligibleFor e (rec :: rest) = eligibleFor e rest := by
        simp [eligibleFor, List.filter_cons, hlen]
      have hstep : bestFoldAux e (some (r0, s0)) (rec :: rest) =
          bestFoldAux e (some (r0, s0)) rest := by
        simp only [bestFoldAux, if_pos hlen]
      rcases bestFoldAux_acc_spec e rest r0 s0 with ⟨h1, h2⟩ |
        ⟨r1, s1, pre, post, h1, h2, h3, h4, h5, h6⟩
      · exact Or.inl ⟨hstep.trans h1, by rw [helig]; exact h2⟩
      · exact Or.inr ⟨r1, s1, pre, post, hstep.trans h1, h2, h3,
          by rw [helig]; exact h4, h5, by rw [helig]; exact h6⟩
    · push_neg at hlen
      have helig : eligibleFor e (rec :: rest) = rec :: eligibleFor e rest := by
        simp [eligibleFor, List.filter_cons, hlen]
      by_cases hsc : cosine_similarity e rec.vector ≤ s0
      · have hstep : bestFoldAux e (some (r0, s0)) (rec :: rest) =
            bestFoldAux e (some (r0, s0)) rest := by
          simp only [bestFoldAux, if_pos hsc]
          rw [if_neg (fun hne => hne hlen)]
        rcases bestFoldAux_acc_spec e rest r0 s0 with ⟨h1, h2⟩ |
          ⟨r1, s1, pre, post, h1, h2, h3, h4, h5, h6⟩
        · refine Or.inl ⟨hstep.trans h1, ?_⟩
          rw [helig]
          intro x hx
          rcases List.mem_cons.mp hx with hx | hx
          · rw [hx]; exact hsc
          · exact h2 x hx
        · refine Or.inr ⟨r1, s1, rec :: pre, post, hstep.trans h1, h2, h3, ?_, ?_, ?_⟩
          · rw [helig, h4]; rfl
          · intro x hx
            rcases List.mem_cons.mp hx with hx | hx
            · rw [hx]; exact lt_of_le_of_lt hsc h2
            · exact h5 x hx
          · rw [helig]
            intro x hx
            rcases List.mem_cons.mp hx with hx | hx
            · rw [hx]; exact le_of_lt (lt_of_le_of_lt hsc h2)
            · exact h6 x hx
      · push_neg at hsc
        have hstep : bestFoldAux e (some (r0, s0)) (rec :: rest) =
            bestFoldAux e (some (rec, cosine_similarity e rec.vector)) rest := by
          simp only [bestFoldAux, if_neg (not_le.mpr hsc)]
          rw [if_neg (fun hne => hne hlen)]
        rcases bestFoldAux_acc_spec e rest rec (cosine_similarity e rec.vector) with
          ⟨h1, h2⟩ | ⟨r1, s1, pre, post, h1, h2, h3, h4, h5, h6⟩
        · refine Or.inr ⟨rec, cosine_similarity e rec.vector, [], eligibleFor e rest,
            hstep.trans h1, hsc, rfl, by rw [helig]; rfl, by simp, ?_⟩
          rw [helig]
          intro x hx
          rcases List.mem_cons.mp hx with hx | hx
          · rw [hx]
          · exact h2 x hx
        · refine Or.inr ⟨r1, s1, rec :: pre, post, hstep.trans h1,
            lt_trans hsc h2, h3, ?_, ?_, ?_⟩
          · rw [helig, h4]; rfl
          · intro x hx
            rcases List.mem_cons.mp hx with hx | hx
            · rw [hx]; exact h2
            · exact h5 x hx
          · rw [helig]
            intro x hx
            rcases List.mem_cons.mp hx with hx | hx
            · rw [hx]; exact le_of_lt h2
            · exact h6 x hx

theorem bestFoldAux_none_spec (e : List ℝ) :
    ∀ known : List StoredEmbedding,
      (bestFoldAux e none known = none ∧ eligibleFor e known = [])
      ∨ (∃ r1 s1 pre post,
          bestFoldAux e none known = some (r1, s1)
          ∧ s1 = cosine_similarity e r1.vector
          ∧ eligibleFor e known = pre ++ r1 :: post
          ∧ (∀ x ∈ pre, cosine_similarity e x.vector < s1)
          ∧ (∀ x ∈ eligibleFor e known, cosine_similarity e x.vector ≤ s1))
  | [] => Or.inl ⟨rfl, rfl⟩
  | rec :: rest => by
    by_cases hlen : rec.vector.length ≠ e.length
    · have helig : eligibleFor e (rec :: rest) = eligibleFor e rest := by
        simp [eligibleFor, List.filter_cons, hlen]
      have hstep : bestFoldAux e none (rec :: rest) = bestFoldAux e none rest := by
        simp only [bestFoldAux, if_pos hlen]
      rcases bestFoldAux_none_spec e rest with ⟨h1, h2⟩ |
        ⟨r1, s1, pre, post, h1, h2, h3, h4, h5⟩
      · exact Or.inl ⟨hstep.trans h1, helig.trans h2⟩
      · exact Or.inr ⟨r1, s1, pre, post, hstep.trans h1, h2, helig.trans h3, h4,
          by rw [helig]; exact h5⟩
    · push_neg at hlen
      have helig : eligibleFor e (rec :: rest) = rec :: eligibleFor e rest := by
        simp [eligibleFor, List.filter_cons, hlen]
      have hstep : bestFoldAux e none (rec :: rest) =
          bestFoldAux e (some (rec, cosine_similarity e rec.vector)) rest := by
        simp only [bestFoldAux]
        rw [if_neg (fun hne => hne hlen)]
      rcases bestFoldAux_acc_spec e rest rec (cosine_similarity e rec.vector) with
        ⟨h1, h2⟩ | ⟨r1, s1, pre, post, h1, h2, h3, h4, h5, h6⟩
      · refine Or.inr ⟨rec, cosine_similarity e rec.vector, [], eligibleFor e rest,
          hstep.trans h1, rfl, by rw [helig]; rfl, by simp, ?_⟩
        rw [helig]
        intro x hx
        rcases List.mem_cons.mp hx with hx | hx
        · rw [hx]
        · exact h2 x hx
      · refine Or.inr ⟨r1, s1, rec :: pre, post, hstep.trans h1, h3, ?_, ?_, ?_⟩
        · rw [helig, h4]; rfl
        · intro x hx
          rcases List.mem_cons.mp hx with hx | hx
          · rw [hx]; exact h2
          · exact h5 x hx
        · rw [helig]
          intro x hx
          rcases List.mem_cons.mp hx with hx | hx
          · rw [hx]; exact le_of_lt h2
          · exact h6 x hx

/-- C6: the scan result of `best_match` is characterized over the stored
embeddings of equal vector length (`eligibleFor`): the scan is empty
exactly when no stored embedding has the query's length, and otherwise it
returns the first candidate, in scan order, whose cosine score is
maximal — every earlier eligible candidate scores strictly lower, every
eligible candidate scores at most the returned score. -/
theorem best_scan_first_max (e : List ℝ) (known : List StoredEmbedding) :
    (bestFold e known = none ↔ eligibleFor e known = [])
    ∧ (∀ r s, bestFold e known = some (r, s) →
        s = cosine_similarity e r.vector
        ∧ (∃ pre post, eligibleFor e known = pre ++ r :: post
            ∧ ∀ x ∈ pre, cosine_similarity e x.vector < s)
        ∧ (∀ x ∈ eligibleFor e known, cosine_similarity e x.vector ≤ s)) := by
  rcases bestFoldAux_none_spec e known with ⟨h1, h2⟩ |
    ⟨r1, s1, pre, post, h1, h2, h3, h4, h5⟩
  · constructor
    · exact ⟨fun _ => h2, fun _ => h1⟩
    · intro r s hrs
      rw [bestFold, h1] at hrs
      cases hrs
  · constructor
    · rw [bestFold, h1]
      constructor
      · intro h; cases h
      · intro helig
        rw [helig] at h3
        exact absurd h3.symm (by simp)
    · intro r s hrs
      rw [bestFold, h1] at hrs
      injection hrs with hrs
      rw [Prod.mk.injEq] at hrs
      obtain ⟨hr, hs⟩ := hrs
      subst hr
      subst hs
      exact ⟨h2, ⟨pre, post, h3, h4⟩, h5⟩

theorem cos_single_pos (x y : ℝ) (hx : 0 < x) (hy : 0 < y) :
    cosine_similarity [x] [y] = 1 := by
  simp only [cosine_similarity, List.zip_cons_cons, List.zip_nil_right,
    List.map_cons, List.map_nil, List.sum_cons, List.sum_nil, add_zero]
  rw [Real.sqrt_mul_self hx.le, Real.sqrt_mul_self hy.le]
  rw [if_neg (by push_neg; exact ⟨ne_of_gt hx, ne_of_gt hy⟩)]
  exact div_self (ne_of_gt (mul_pos hx hy))

theorem cos_tieA : cosine_similarity qTie seTieA.vector = 1 := by
  have h : cosine_similarity [(1 : ℝ)] [(2 : ℝ)] = 1 :=
    cos_single_pos 1 2 one_pos (by norm_num)
  exact h

theorem cos_tieB : cosine_similarity qTie seTieB.vector = 1 := by
  have h : cosine_similarity [(1 : ℝ)] [(3 : ℝ)] = 1 :=
    cos_single_pos 1 3 one_pos (by norm_num)
  exact h

theorem bestFold_tie : bestFold qTie [seTieA, seTieB, seTieC] = some (seTieA, 1) := by
  have lA : ¬ seTieA.vector.length ≠ qTie.length := by simp [seTieA, qTie]
  have lB : ¬ seTieB.vector.length ≠ qTie.length := by simp [seTieB, qTie]
  have lC : seTieC.vector.length ≠ qTie.length := by simp [seTieC, qTie]
  rw [bestFold, bestFoldAux, if_neg lA]
  simp only [cos_tieA]
  rw [bestFoldAux, if_neg lB]
  simp only [cos_tieB, if_pos le_rfl]
  rw [bestFoldAux, if_pos lC, bestFoldAux]

/-- Witness for C6: query `[1]` against stored vectors `[2]`, `[3]`,
`[1, 0]`: the third is skipped (length mismatch), the first two tie at
score 1, and the scan keeps the first. -/
theorem best_scan_first_max_witness :
    bestFold qTie [seTieA, seTieB, seTieC] = some (seTieA, 1)
    ∧ (1 = cosine_similarity qTie seTieA.vector
      ∧ (∃ pre post, eligibleFor qTie [seTieA, seTieB, seTieC] = pre ++ seTieA :: post
          ∧ ∀ x ∈ pre, cosine_similarity qTie x.vector < 1)
      ∧ (∀ x ∈ eligibleFor qTie [seTieA, seTieB, seTieC],
          cosine_similarity qTie x.vector ≤ 1)) :=
  ⟨bestFold_tie,
   (best_scan_first_max qTie [seTieA, seTieB, seTieC]).2 seTieA 1 bestFold_tie⟩

/-! ### C1: segment normalization bounds -/

theorem fixEnd_spec (d : Nat) (s0 : ApiSegment) (hs : s0.start_ms < 2 ^ 64) :
    (0 < d → (fixEnd d s0).end_ms ≤ d)
    ∧ (fixEnd d s0).start_ms = s0.start_ms
    ∧ (d = 0 ∨ s0.start_ms ≤ d → s0.start_ms ≤ (fixEnd d s0).end_ms) := by
  refine ⟨?_, rfl, ?_⟩ <;>
    (simp only [fixEnd, u64SatAdd]; split_ifs <;> (intro hc; omega))

/-- C1 (amended): every segment produced by `normalize_segments` has
`end_ms` clamped to the clip duration whenever that duration is positive,
and `start_ms ≤ end_ms` holds whenever the segment's `start_ms` does not
exceed the clip duration (or the duration is zero); an input segment whose
`start_ms` exceeds a positive clip duration instead ends with
`end_ms` clamped strictly below `start_ms`. -/
theorem normalize_segments_clamped (segments : Option (List ApiSegment))
    (transcript : String) (audio : AudioClip)
    (hb : ∀ s ∈ segments.getD [], s.start_ms < 2 ^ 64) :
    ∀ seg ∈ normalize_segments segments transcript audio,
      (0 < audio.duration_ms → seg.end_ms ≤ audio.duration_ms)
      ∧ (audio.duration_ms = 0 ∨ seg.start_ms ≤ audio.duration_ms →
          seg.start_ms ≤ seg.end_ms) := by
  intro seg hseg
  simp only [normalize_segments] at hseg
  have hseg2 := (List.mergeSort_perm _ _).mem_iff.mp hseg
  obtain ⟨s0, hs0, rfl⟩ := List.mem_map.mp hseg2
  have hstart : s0.start_ms < 2 ^ 64 := by
    by_cases he : (segments.getD []).isEmpty
    · rw [if_pos he] at hs0
      rcases List.mem_singleton.mp hs0 with rfl
      norm_num
    · rw [if_neg he] at hs0
      exact hb s0 hs0
  obtain ⟨h1, h2, h3⟩ := fixEnd_spec audio.duration_ms s0 hstart
  exact ⟨h1, by rw [h2]; exact h3⟩

/-- Counterexample to C1 as stated: on a 3-second clip, an input segment
spanning 5000–6000 ms is clamped to `end_ms = 3000` while keeping
`start_ms = 5000`, so the normalized segment violates
`start_ms ≤ end_ms`. -/
theorem normalize_segments_cex :
    ¬ (∀ seg ∈ normalize_segments (some [cexSeg]) "tr" cexClip,
        seg.start_ms ≤ seg.end_ms ∧ seg.end_ms ≤ cexClip.duration_ms) := by
  have hdur : cexClip.duration_ms = 3000 := by
    show (if (1 : Nat) = 0 then 0
      else ([(0 : ℝ), 0, 0]).length * 1000 % 2 ^ 64 / 1) = 3000
    rw [if_neg (by norm_num)]
    rw [show ([(0 : ℝ), 0, 0]).length = 3 from rfl,
      Nat.mod_eq_of_lt (by norm_num), Nat.div_one]
  have hfix : fixEnd 3000 cexSeg = { cexSeg with end_ms := 3000 } := rfl
  have hnorm : normalize_segments (some [cexSeg]) "tr" cexClip =
      [{ cexSeg with end_ms := 3000 }] := by
    simp only [normalize_segments, Option.getD_some]
    rw [if_neg (by simp)]
    rw [List.map_cons, List.map_nil, hdur, hfix, List.mergeSort_singleton]
  intro h
  have hx := h _ (by rw [hnorm]; exact List.mem_singleton.mpr rfl)
  simp only [cexSeg] at hx
  omega

/-- Witness for the amended C1 at a well-formed in-range segment. -/
theorem normalize_segments_clamped_witness :
    (∀ s ∈ (some [wSeg] : Option (List ApiSegment)).getD [], s.start_ms < 2 ^ 64)
    ∧ ∀ seg ∈ normalize_segments (some [wSeg]) "t" cexClip,
        (0 < cexClip.duration_ms → seg.end_ms ≤ cexClip.duration_ms)
        ∧ (cexClip.duration_ms = 0 ∨ seg.start_ms ≤ cexClip.duration_ms →
            seg.start_ms ≤ seg.end_ms) := by
  have hb : ∀ s ∈ (some [wSeg] : Option (List ApiSegment)).getD [], s.start_ms < 2 ^ 64 := by
    intro s hs
    rcases List.mem_singleton.mp hs with rfl
    norm_num [wSeg]
  exact ⟨hb, normalize_segments_clamped (some [wSeg]) "t" cexClip hb⟩

/-! ### C8: the audio bucketer caps each cluster at ten seconds -/

theorem take_append_take (t : Nat) (x y : List ℝ) :
    (x.take t ++ y).take t = (x ++ y).take t := by
  rw [List.take_append_eq_append_take, List.take_append_eq_append_take,
    List.take_take, Nat.min_self]
  congr 2
  rw [List.length_take]
  omega

theorem take_extend (t : Nat) (cur sl : List ℝ) (hb : cur.length ≤ t) :
    cur ++ sl.take (t - cur.length) = (cur ++ sl).take t := by
  rw [List.take_append_eq_append_take, List.take_of_length_le hb]

theorem lookup_assocSet_self (k : String) (v : List ℝ) :
    ∀ m : List (String × List ℝ), (assocSet m k v).lookup k = some v
  | [] => by simp [assocSet, List.lookup]
  | (k0, v0) :: rest => by
    by_cases h : k0 = k
    · simp [assocSet, h, List.lookup]
    · simp only [assocSet, if_neg h, List.lookup_cons]
      have hne : (k == k0) = false := by simp [Ne.symm h]
      rw [hne]
      exact lookup_assocSet_self k v rest

theorem lookup_assocSet_ne (k q : String) (v : List ℝ) (h : q ≠ k) :
    ∀ m : List (String × List ℝ), (assocSet m k v).lookup q = m.lookup q
  | [] => by
    have hne : (q == k) = false := by simp [h]
    simp [assocSet, List.lookup, hne]
  | (k0, v0) :: rest => by
    by_cases hk : k0 = k
    · subst hk
      have hne : (q == k0) = false := by simp [h]
      show List.lookup q
          (if k0 = k0 then (k0, v) :: rest else (k0, v0) :: assocSet rest k0 v) =
        List.lookup q ((k0, v0) :: rest)
      rw [if_pos rfl, List.lookup_cons, List.lookup_cons, hne]
    · simp only [assocSet, if_neg hk, List.lookup_cons]
      cases hqk : q == k0 with
      | true => rfl
      | false => exact lookup_assocSet_ne k q v h rest

theorem sliceCat_nil (audio : AudioClip) (k : String) : sliceCat audio [] k = [] := rfl

theorem sliceCat_cons_pos (audio : AudioClip) (s : ApiSegment)
    (rest : List ApiSegment) (k : String) (h : s.speaker = k) :
    sliceCat audio (s :: rest) k = segSlice audio s ++ sliceCat audio rest k := by
  simp [sliceCat, List.filter_cons, h]

theorem sliceCat_cons_neg (audio : AudioClip) (s : ApiSegment)
    (rest : List ApiSegment) (k : String) (h : ¬ s.speaker = k) :
    sliceCat audio (s :: rest) k = sliceCat audio rest k := by
  simp [sliceCat, List.filter_cons, h]

theorem targetSamples_pos (audio : AudioClip) : 1 ≤ targetSamples audio :=
  le_max_left 1 _

theorem collectStep_lookup (audio : AudioClip) (m : List (String × List ℝ))
    (s : ApiSegment) (k : String)
    (hb : ∀ v, m.lookup k = some v → v.length ≤ targetSamples audio) :
    (collectStep audio m s).lookup k =
      if s.speaker = k ∧ (segSlice audio s).isEmpty = false then
        some ((((m.lookup k).getD []) ++ segSlice audio s).take (targetSamples audio))
      else m.lookup k := by
  by_cases hsl : (segSlice audio s).isEmpty
  · simp only [collectStep, if_pos hsl]
    rw [if_neg (fun hand => by rw [hand.2] at hsl; cases hsl)]
  · have hslf : (segSlice audio s).isEmpty = false := by
      cases hh : (segSlice audio s).isEmpty
      · rfl
      · exact absurd hh hsl
    simp only [collectStep, if_neg hsl]
    by_cases hk : s.speaker = k
    · subst hk
      by_cases hrem : targetSamples audio - ((m.lookup s.speaker).getD []).length = 0
      · rw [if_pos hrem, if_pos ⟨rfl, hslf⟩]
        cases hm : m.lookup s.speaker with
        | none =>
          exfalso
          rw [hm] at hrem
          have hp := targetSamples_pos audio
          simp only [Option.getD_none, List.length_nil, Nat.sub_zero] at hrem
          omega
        | some v =>
          rw [hm] at hrem
          simp only [Option.getD_some] at hrem ⊢
          rw [List.take_append_eq_append_take, List.take_of_length_le (hb v hm), hrem]
          simp
      · rw [if_neg hrem, if_pos ⟨rfl, hslf⟩]
        rw [lookup_assocSet_self]
        have hcb : ((m.lookup s.speaker).getD []).length ≤ targetSamples audio := by
          cases hm : m.lookup s.speaker with
          | none => simp
          | some v =>
            simp only [Option.getD_some]
            exact hb v hm
        rw [take_extend _ _ _ hcb]
    · have hcond : ¬ (s.speaker = k ∧ (segSlice audio s).isEmpty = false) :=
        fun hand => hk hand.1
      rw [if_neg hcond]
      by_cases hrem : targetSamples audio - ((m.lookup s.speaker).getD []).length = 0
      · rw [if_pos hrem]
      · rw [if_neg hrem]
        exact lookup_assocSet_ne s.speaker k _ (fun hqk => hk hqk.symm) m

theorem collectStep_bound (audio : AudioClip) (m : List (String × List ℝ))
    (s : ApiSegment)
    (hb : ∀ k v, m.lookup k = some v → v.length ≤ targetSamples audio) :
    ∀ k v, (collectStep audio m s).lookup k = some v →
      v.length ≤ targetSamples audio := by
  intro k v hv
  rw [collectStep_lookup audio m s k (hb k)] at hv
  split_ifs at hv with hc
  · injection hv with hv
    rw [← hv]
    exact List.length_take_le _ _
  · exact hb k v hv

theorem collect_foldl_lookup (audio : AudioClip) :
    ∀ (segs : List ApiSegment) (m : List (String × List ℝ)),
      (∀ k v, m.lookup k = some v → v.length ≤ targetSamples audio) →
      ∀ k,
        (∀ pre, m.lookup k = some pre →
          (segs.foldl (collectStep audio) m).lookup k =
            some ((pre ++ sliceCat audio segs k).take (targetSamples audio)))
        ∧ (m.lookup k = none →
          (segs.foldl (collectStep audio) m).lookup k =
            if (sliceCat audio segs k).isEmpty = true then none
            else some ((sliceCat audio segs k).take (targetSamples audio)))
  | [], m, hb, k => by
    constructor
    · intro pre hm
      rw [List.foldl_nil, hm, sliceCat_nil, List.append_nil,
        List.take_of_length_le (hb k pre hm)]
    · intro hm
      rw [List.foldl_nil, hm, sliceCat_nil]
      rfl
  | s :: rest, m, hb, k => by
    have IH := collect_foldl_lookup audio rest (collectStep audio m s)
      (collectStep_bound audio m s hb) k
    have hstep := collectStep_lookup audio m s k (hb k)
    constructor
    · intro pre hm
      rw [List.foldl_cons]
      by_cases hk : s.speaker = k
      · by_cases hsle : (segSlice audio s).isEmpty
        · have hsl : segSlice audio s = [] := List.isEmpty_iff.mp hsle
          have hm2 : (collectStep audio m s).lookup k = some pre := by
            rw [hstep, if_neg (fun hand => by rw [hand.2] at hsle; cases hsle), hm]
          rw [IH.1 pre hm2, sliceCat_cons_pos audio s rest k hk, hsl, List.nil_append]
        · have hslf : (segSlice audio s).isEmpty = false := by
            cases hh : (segSlice audio s).isEmpty
            · rfl
            · exact absurd hh hsle
          have hm2 : (collectStep audio m s).lookup k =
              some ((pre ++ segSlice audio s).take (targetSamples audio)) := by
            rw [hstep, if_pos ⟨hk, hslf⟩, hm, Option.getD_some]
          rw [IH.1 _ hm2, take_append_take, List.append_assoc,
            sliceCat_cons_pos audio s rest k hk]
      · have hm2 : (collectStep audio m s).lookup k = some pre := by
          rw [hstep, if_neg (fun hand => hk hand.1), hm]
        rw [IH.1 pre hm2, sliceCat_cons_neg audio s rest k hk]
    · intro hm
      rw [List.foldl_cons]
      by_cases hk : s.speaker = k
      · by_cases hsle : (segSlice audio s).isEmpty
        · have hsl : segSlice audio s = [] := List.isEmpty_iff.mp hsle
          have hm2 : (collectStep audio m s).lookup k = none := by
            rw [hstep, if_neg (fun hand => by rw [hand.2] at hsle; cases hsle), hm]
          rw [IH.2 hm2, sliceCat_cons_pos audio s rest k hk, hsl, List.nil_append]
        · have hslf : (segSlice audio s).isEmpty = false := by
            cases hh : (segSlice audio s).isEmpty
            · rfl
            · exact absurd hh hsle
          have hsl2 : segSlice audio s ≠ [] := by
            intro hnil
            rw [hnil] at hslf
            cases hslf
          have hm2 : (collectStep audio m s).lookup k =
              some ((segSlice audio s).take (targetSamples audio)) := by
            rw [hstep, if_pos ⟨hk, hslf⟩, hm, Option.getD_none, List.nil_append]
          rw [IH.1 _ hm2, take_append_take, sliceCat_cons_pos audio s rest k hk]
          rw [if_neg (by simp [List.isEmpty_iff, hsl2])]
      · have hm2 : (collectStep audio m s).lookup k = none := by
          rw [hstep, if_neg (fun hand => hk hand.1), hm]
        rw [IH.2 hm2, sliceCat_cons_neg audio s rest k hk]

theorem sliceCat_sr_zero (audio : AudioClip) (segments : List ApiSegment)
    (k : String) (h0 : audio.sample_rate = 0) : sliceCat audio segments k = [] := by
  rw [sliceCat, List.flatten_eq_nil_iff]
  intro l hl
  obtain ⟨s, _, rfl⟩ := List.mem_map.mp hl
  simp [segSlice, segRange, h0]

/-- C8: every cluster buffer in the bucketer's output is exactly the
concatenation of its segments' slices truncated at the ten-second cap
(first-seen audio wins), is non-empty, and holds at most
`sample_rate × 10` samples; a cluster is absent from the output exactly
when it contributed no samples. -/
theorem collect_audio_spec (audio : AudioClip) (segments : List ApiSegment)
    (k : String) :
    (∀ buf, (collect_audio_by_speaker audio segments).lookup k = some buf →
      buf = bucketSpec audio segments k ∧ buf ≠ []
        ∧ buf.length ≤ audio.sample_rate * 10)
    ∧ ((collect_audio_by_speaker audio segments).lookup k = none →
        bucketSpec audio segments k = []) := by
  have hbound : ∀ (k0 : String) (v : List ℝ),
      (([] : List (String × List ℝ)).lookup k0) = some v →
        v.length ≤ targetSamples audio := by
    intro k0 v hv
    simp [List.lookup] at hv
  have h := (collect_foldl_lookup audio segments [] hbound k).2 rfl
  have hc : collect_audio_by_speaker audio segments =
      segments.foldl (collectStep audio) [] := rfl
  have hbs : bucketSpec audio segments k =
      (sliceCat audio segments k).take (targetSamples audio) := rfl
  constructor
  · intro buf hbuf
    rw [hc, h] at hbuf
    by_cases hf : (sliceCat audio segments k).isEmpty = true
    · rw [if_pos hf] at hbuf
      cases hbuf
    · rw [if_neg hf] at hbuf
      injection hbuf with hbuf
      have hfne : sliceCat audio segments k ≠ [] := by
        intro hn
        rw [hn] at hf
        exact hf rfl
      have hsr : audio.sample_rate ≠ 0 := by
        intro h0
        exact hfne (sliceCat_sr_zero audio segments k h0)
      have hT : targetSamples audio = audio.sample_rate * 10 := by
        rw [targetSamples, TARGET_SPEAKER_MS]
        have hdiv : audio.sample_rate * 10000 / 1000 = audio.sample_rate * 10 := by
          omega
        rw [hdiv]
        exact Nat.max_eq_right (by omega)
      refine ⟨by rw [← hbuf, hbs], ?_, ?_⟩
      · rw [← hbuf]
        intro hn
        rcases List.take_eq_nil_iff.mp hn with h0 | h0
        · have := targetSamples_pos audio
          omega
        · exact hfne h0
      · rw [← hbuf, ← hT]
        exact List.length_take_le _ _
  · intro hnone
    rw [hc, h] at hnone
    by_cases hf : (sliceCat audio segments k).isEmpty = true
    · rw [hbs, List.isEmpty_iff.mp hf, List.take_nil]
    · rw [if_neg hf] at hnone
      cases hnone

/-- Witness for C8: a one-sample clip at 1 Hz with a single one-second
segment buckets that sample under its cluster label. -/
theorem collect_audio_spec_witness :
    (collect_audio_by_speaker clip8 [seg8]).lookup "s" = some [0]
    ∧ ([(0 : ℝ)] = bucketSpec clip8 [seg8] "s" ∧ [(0 : ℝ)] ≠ []
        ∧ ([(0 : ℝ)] : List ℝ).length ≤ clip8.sample_rate * 10) := by
  have hl : (collect_audio_by_speaker clip8 [seg8]).lookup "s" = some [0] := rfl
  exact ⟨hl, (collect_audio_spec clip8 [seg8] "s").1 [0] hl⟩

end Recall